import Mathlib

/- Verification development for the RustEditorKit core logic
   (src/rusteditorkit/src/corelogic).

   Modelling conventions:
   - A Rust `String` buffer line is modelled as a `List Char` (`Line`);
     `chars().count()` is `List.length`, `String::len` (UTF-8 byte length)
     is `byteLen`, and byte-indexed operations go through an explicit
     UTF-8 encoding (`lineBytes`).
   - Rust `Vec` stacks are modelled with the list HEAD as the top of the
     stack (Rust `push`/`pop` act on the back, `remove(0)` drops the
     oldest element, which here is the LAST list element, `dropLast`).
   - Out-of-range `Vec` indexing, which panics in Rust, is modelled with
     `List.getD`/`List.set`-style total operations; the panics that the
     byte-indexed string slices of search.rs can actually hit are modelled
     faithfully with `Except Unit` (`.error ()` = panic).
   - Fields of `EditorBuffer` that no claim observes (configuration,
     rendering, clipboard, scroll, mouse and multi-cursor state) are
     omitted from the state. -/

/-- A buffer line: the character sequence of a Rust `String`. -/
abbrev Line := List Char

/-- Character list of a string literal. -/
def toL (s : String) : Line := s.toList

/-- UTF-8 encoding of a single character: the bytes Rust stores for it. -/
def encodeChar (c : Char) : List Nat :=
  let n := c.toNat
  if n < 0x80 then [n]
  else if n < 0x800 then [0xC0 + n / 64, 0x80 + n % 64]
  else if n < 0x10000 then [0xE0 + n / 4096, 0x80 + n / 64 % 64, 0x80 + n % 64]
  else [0xF0 + n / 262144, 0x80 + n / 4096 % 64, 0x80 + n / 64 % 64, 0x80 + n % 64]

/-- UTF-8 bytes of a line (Rust `str::as_bytes`). -/
def lineBytes (l : Line) : List Nat := l.foldr (fun c acc => encodeChar c ++ acc) []

/-- Rust `String::len`: the UTF-8 byte length of a line. -/
def byteLen (l : Line) : Nat := (lineBytes l).length

/-- Rust `str::is_char_boundary` at byte offset `i` of a line. -/
def isBoundary : Line → Nat → Bool
  | _, 0 => true
  | [], _ + 1 => false
  | c :: rest, i + 1 =>
    if i + 1 < (encodeChar c).length then false
    else isBoundary rest (i + 1 - (encodeChar c).length)

/-- Number of whole characters contained in the first `i` bytes of a line
(used to convert a byte offset that lies on a character boundary back to a
character index). -/
def charsUpToByte : Line → Nat → Nat
  | [], _ => 0
  | c :: rest, i =>
    if (encodeChar c).length ≤ i then 1 + charsUpToByte rest (i - (encodeChar c).length)
    else 0

/-- Map a function over a list together with the element index, starting at `i`. -/
def mapIdxGo (f : Nat → Line → Line) : Nat → List Line → List Line
  | _, [] => []
  | i, l :: ls => f i l :: mapIdxGo f (i + 1) ls

/-- Split a character list at every newline character (Rust `str::split('\n')`):
the separators are consumed and trailing empty pieces are kept. -/
def splitNl : Line → List Line
  | [] => [[]]
  | c :: rest =>
    if c = '\n' then [] :: splitNl rest
    else
      match splitNl rest with
      | [] => [[c]]
      | h :: t => (c :: h) :: t

/-- Remove one trailing carriage return, if present. -/
def stripCr (l : Line) : Line :=
  if l.getLast? = some '\r' then l.dropLast else l

/-- Rust `str::lines()`: split on newline characters; every piece that was
terminated by a newline loses one trailing carriage return; a final empty
piece (from a trailing newline, or from the empty string) is omitted. -/
def rustLines (s : Line) : List Line :=
  let ps := splitNl s
  ps.dropLast.map stripCr ++
    (match ps.getLast? with
     | some l => if l = [] then [] else [l]
     | none => [])

/-- Join lines with newline characters (Rust `Vec::join("\n")`). -/
def joinLines : List Line → Line
  | [] => []
  | [l] => l
  | l :: ls => l ++ '\n' :: joinLines ls

/-- Lexicographic comparison of (row, col) pairs, as Rust derives `<=` on
`(usize, usize)` tuples. -/
def posLe (a b : Nat × Nat) : Bool :=
  a.1 < b.1 || (a.1 = b.1 && a.2 ≤ b.2)

/-- corelogic/selection.rs: `Selection`. -/
structure Selection where
  start_row : Nat
  start_col : Nat
  end_row : Nat
  end_col : Nat
deriving DecidableEq, Repr

/-- Rust `Selection::normalized`: endpoints in lexicographic order. -/
def Selection.normalized (s : Selection) : (Nat × Nat) × (Nat × Nat) :=
  if posLe (s.start_row, s.start_col) (s.end_row, s.end_col) then
    ((s.start_row, s.start_col), (s.end_row, s.end_col))
  else
    ((s.end_row, s.end_col), (s.start_row, s.start_col))

/-- Rust `Selection::is_active`. -/
def Selection.is_active (s : Selection) : Bool :=
  decide ((s.start_row, s.start_col) ≠ (s.end_row, s.end_col))

/-- Rust `Selection::clamp_to_buffer` (column clamping uses `chars().count()`). -/
def Selection.clamp_to_buffer (s : Selection) (lines : List Line) : Selection :=
  let max_row := lines.length - 1
  let sr := min s.start_row max_row
  let er := min s.end_row max_row
  { start_row := sr
    start_col := min s.start_col (lines.getD sr []).length
    end_row := er
    end_col := min s.end_col (lines.getD er []).length }

/-- corelogic/buffer.rs: `EditorCursor`. -/
structure EditorCursor where
  row : Nat
  col : Nat
deriving DecidableEq, Repr

/-- corelogic/undo.rs: `BufferState`, the undo/redo snapshot unit. -/
structure BufferState where
  lines : List Line
  selection : Option Selection
  cursor : EditorCursor
deriving DecidableEq, Repr

/-- corelogic/buffer.rs: `EditorBuffer`, restricted to the fields the
claims observe (text, cursor, selection and the two history stacks). -/
structure EditorBuffer where
  lines : List Line
  cursor : EditorCursor
  selection : Option Selection
  undo_stack : List BufferState
  redo_stack : List BufferState
deriving DecidableEq, Repr

/-- The (lines, cursor, selection) part of the state: what a snapshot
records and what the undo-involution claims compare. -/
structure View where
  lines : List Line
  cursor : EditorCursor
  selection : Option Selection
deriving DecidableEq, Repr

/-- Observable view of a buffer. -/
def view (b : EditorBuffer) : View := ⟨b.lines, b.cursor, b.selection⟩

/-- The snapshot `push_undo` takes of the current state. -/
def snapshot (b : EditorBuffer) : BufferState := ⟨b.lines, b.selection, b.cursor⟩

/-- The starting buffer of `EditorBuffer::new()` (corelogic/buffer.rs):
welcome text, cursor at the origin, no selection, empty stacks. -/
def initBuffer : EditorBuffer :=
  { lines :=
      [toL "Welcome to RustEditorKit!",
       toL "",
       toL "This is a new Rust-based code editor.",
       toL "You can type here and use arrow keys to move around.",
       toL "",
       toL "Features:",
       toL "- Basic text editing",
       toL "- Cursor movement",
       toL "- Line numbers",
       toL "- Configurable themes"]
    cursor := ⟨0, 0⟩
    selection := none
    undo_stack := []
    redo_stack := [] }

/-- The empty one-line buffer the spec scenarios start from. -/
def scenarioInit : EditorBuffer :=
  { lines := [[]], cursor := ⟨0, 0⟩, selection := none, undo_stack := [], redo_stack := [] }

/-- corelogic/undo.rs: `push_undo` - snapshot the current state onto the
undo stack, clear the redo stack, and drop the oldest snapshot when the
stack exceeds `MAX_UNDO_STACK_SIZE = 100` entries. -/
def EditorBuffer.push_undo (b : EditorBuffer) : EditorBuffer :=
  let u := snapshot b :: b.undo_stack
  let u := if 100 < u.length then u.dropLast else u
  { b with undo_stack := u, redo_stack := [] }

/-- corelogic/undo.rs: `undo`. -/
def EditorBuffer.undo (b : EditorBuffer) : EditorBuffer :=
  match b.undo_stack with
  | [] => b
  | prev :: rest =>
    { lines := prev.lines
      cursor := prev.cursor
      selection := prev.selection
      undo_stack := rest
      redo_stack := snapshot b :: b.redo_stack }

/-- corelogic/undo.rs: `redo`. -/
def EditorBuffer.redo (b : EditorBuffer) : EditorBuffer :=
  match b.redo_stack with
  | [] => b
  | next :: rest =>
    { lines := next.lines
      cursor := next.cursor
      selection := next.selection
      undo_stack := snapshot b :: b.undo_stack
      redo_stack := rest }

/-- corelogic/undo.rs: `clear_undo_history`. -/
def EditorBuffer.clear_undo_history (b : EditorBuffer) : EditorBuffer :=
  { b with undo_stack := [], redo_stack := [] }

/-- corelogic/cursor.rs: `clear_selection`. -/
def EditorBuffer.clear_selection (b : EditorBuffer) : EditorBuffer :=
  { b with selection := none }

/-- corelogic/editing.rs: `clear_selection_if_exists`. -/
def EditorBuffer.clear_selection_if_exists (b : EditorBuffer) : EditorBuffer :=
  if b.selection.isSome then { b with selection := none } else b

/-- corelogic/cursor.rs: `move_left_internal`. -/
def EditorBuffer.move_left_internal (b : EditorBuffer) : EditorBuffer :=
  if 0 < b.cursor.col then
    { b with cursor := ⟨b.cursor.row, b.cursor.col - 1⟩ }
  else if 0 < b.cursor.row then
    { b with cursor := ⟨b.cursor.row - 1, (b.lines.getD (b.cursor.row - 1) []).length⟩ }
  else b

/-- corelogic/cursor.rs: `move_right_internal`. -/
def EditorBuffer.move_right_internal (b : EditorBuffer) : EditorBuffer :=
  if b.cursor.col < (b.lines.getD b.cursor.row []).length then
    { b with cursor := ⟨b.cursor.row, b.cursor.col + 1⟩ }
  else if b.cursor.row + 1 < b.lines.length then
    { b with cursor := ⟨b.cursor.row + 1, 0⟩ }
  else b

/-- corelogic/cursor.rs: `move_up_internal`. -/
def EditorBuffer.move_up_internal (b : EditorBuffer) : EditorBuffer :=
  if 0 < b.cursor.row then
    { b with cursor := ⟨b.cursor.row - 1, min b.cursor.col (b.lines.getD (b.cursor.row - 1) []).length⟩ }
  else b

/-- corelogic/cursor.rs: `move_down_internal`. -/
def EditorBuffer.move_down_internal (b : EditorBuffer) : EditorBuffer :=
  if b.cursor.row + 1 < b.lines.length then
    { b with cursor := ⟨b.cursor.row + 1, min b.cursor.col (b.lines.getD (b.cursor.row + 1) []).length⟩ }
  else b

/-- corelogic/cursor.rs: `move_left`. -/
def EditorBuffer.move_left (b : EditorBuffer) : EditorBuffer :=
  b.clear_selection.move_left_internal

/-- corelogic/cursor.rs: `move_right`. -/
def EditorBuffer.move_right (b : EditorBuffer) : EditorBuffer :=
  b.clear_selection.move_right_internal

/-- corelogic/cursor.rs: `move_up`. -/
def EditorBuffer.move_up (b : EditorBuffer) : EditorBuffer :=
  b.clear_selection.move_up_internal

/-- corelogic/cursor.rs: `move_down`. -/
def EditorBuffer.move_down (b : EditorBuffer) : EditorBuffer :=
  b.clear_selection.move_down_internal

/-- corelogic/cursor.rs: `move_home`. -/
def EditorBuffer.move_home (b : EditorBuffer) : EditorBuffer :=
  let b := b.clear_selection
  { b with cursor := ⟨b.cursor.row, 0⟩ }

/-- corelogic/cursor.rs: `move_end` (end column in `chars().count()` units). -/
def EditorBuffer.move_end (b : EditorBuffer) : EditorBuffer :=
  let b := b.clear_selection
  { b with cursor := ⟨b.cursor.row, (b.lines.getD b.cursor.row []).length⟩ }

/-- corelogic/cursor.rs: `move_page_up`. -/
def EditorBuffer.move_page_up (b : EditorBuffer) (lines_per_page : Nat) : EditorBuffer :=
  let b := b.clear_selection
  let row := if lines_per_page < b.cursor.row then b.cursor.row - lines_per_page else 0
  { b with cursor := ⟨row, min b.cursor.col (b.lines.getD row []).length⟩ }

/-- corelogic/cursor.rs: `move_page_down`. -/
def EditorBuffer.move_page_down (b : EditorBuffer) (lines_per_page : Nat) : EditorBuffer :=
  let b := b.clear_selection
  let max_row := b.lines.length - 1
  let row := if b.cursor.row + lines_per_page < max_row then b.cursor.row + lines_per_page else max_row
  { b with cursor := ⟨row, min b.cursor.col (b.lines.getD row []).length⟩ }

/-- Shared body of the four `select_*` movements of corelogic/cursor.rs:
move the cursor with the given internal motion, then extend (or create)
the selection towards the new cursor, collapsing it to `none` when the
clamped endpoints coincide. -/
def selectWith (mv : EditorBuffer → EditorBuffer) (b : EditorBuffer) : EditorBuffer :=
  let prev := b.cursor
  let b' := mv b
  let nc := b'.cursor
  if prev ≠ nc then
    match b'.selection with
    | some sel =>
      let sel := { sel with end_row := nc.row, end_col := nc.col }
      let sel := sel.clamp_to_buffer b'.lines
      if (sel.start_row, sel.start_col) = (sel.end_row, sel.end_col) then
        { b' with selection := none }
      else
        { b' with selection := some sel }
    | none =>
      { b' with selection := some ⟨prev.row, prev.col, nc.row, nc.col⟩ }
  else b'

/-- corelogic/cursor.rs: `select_left`. -/
def EditorBuffer.select_left (b : EditorBuffer) : EditorBuffer :=
  selectWith EditorBuffer.move_left_internal b

/-- corelogic/cursor.rs: `select_right`. -/
def EditorBuffer.select_right (b : EditorBuffer) : EditorBuffer :=
  selectWith EditorBuffer.move_right_internal b

/-- corelogic/cursor.rs: `select_up`. -/
def EditorBuffer.select_up (b : EditorBuffer) : EditorBuffer :=
  selectWith EditorBuffer.move_up_internal b

/-- corelogic/cursor.rs: `select_down`. -/
def EditorBuffer.select_down (b : EditorBuffer) : EditorBuffer :=
  selectWith EditorBuffer.move_down_internal b

/-- corelogic/cursor.rs: `select_all` - note that the end column is the
byte length `self.lines[end_row].len()`, not `chars().count()`. -/
def EditorBuffer.select_all (b : EditorBuffer) : EditorBuffer :=
  if b.lines ≠ [] then
    let end_row := b.lines.length - 1
    let end_col := byteLen (b.lines.getD end_row [])
    { b with selection := some ⟨0, 0, end_row, end_col⟩ }
  else b

/-- corelogic/editing.rs: `delete_selection`. Returns the new buffer and
whether a selection was deleted. The Rust `chars.get(..start_col)`
indexing yields the empty slice when `start_col` exceeds the line length. -/
def EditorBuffer.delete_selection (b : EditorBuffer) : EditorBuffer × Bool :=
  match b.selection with
  | none => (b, false)
  | some sel =>
    let b := b.push_undo
    let n := sel.normalized
    let start_row := n.1.1
    let start_col := n.1.2
    let end_row := n.2.1
    let end_col := n.2.2
    if start_row = end_row then
      let line := b.lines.getD start_row []
      let before := if start_col ≤ line.length then line.take start_col else []
      let after := line.drop end_col
      ({ b with lines := b.lines.set start_row (before ++ after)
                cursor := ⟨start_row, start_col⟩
                selection := none }, true)
    else
      let end_part := (b.lines.getD end_row []).drop end_col
      let start_line := b.lines.getD start_row []
      let before_part := if start_col ≤ start_line.length then start_line.take start_col else []
      let lines := b.lines.set start_row (before_part ++ end_part)
      let lines := lines.take (start_row + 1) ++ lines.drop (end_row + 1)
      ({ b with lines := lines
                cursor := ⟨start_row, start_col⟩
                selection := none }, true)

/-- corelogic/editing.rs: `backspace`. -/
def EditorBuffer.backspace (b : EditorBuffer) : EditorBuffer :=
  match b.delete_selection with
  | (b', true) => b'
  | (b', false) =>
    if 0 < b'.cursor.col then
      let b1 := b'.push_undo
      let line := b1.lines.getD b1.cursor.row []
      let line' := line.eraseIdx (b1.cursor.col - 1)
      { b1 with lines := b1.lines.set b1.cursor.row line'
                cursor := ⟨b1.cursor.row, b1.cursor.col - 1⟩ }
    else if 0 < b'.cursor.row then
      let b1 := b'.push_undo
      let prev_len := (b1.lines.getD (b1.cursor.row - 1) []).length
      let current := b1.lines.getD b1.cursor.row []
      let lines := b1.lines.take b1.cursor.row ++ b1.lines.drop (b1.cursor.row + 1)
      let row' := b1.cursor.row - 1
      let lines := lines.set row' ((lines.getD row' []) ++ current)
      { b1 with lines := lines, cursor := ⟨row', prev_len⟩ }
    else b'

/-- corelogic/editing.rs: `delete`. -/
def EditorBuffer.delete (b : EditorBuffer) : EditorBuffer :=
  match b.delete_selection with
  | (b', true) => b'
  | (b', false) =>
    if b'.cursor.row < b'.lines.length then
      if b'.cursor.col < (b'.lines.getD b'.cursor.row []).length then
        let b1 := b'.push_undo
        let line := b1.lines.getD b1.cursor.row []
        { b1 with lines := b1.lines.set b1.cursor.row (line.eraseIdx b1.cursor.col) }
      else if b'.cursor.row + 1 < b'.lines.length then
        let b1 := b'.push_undo
        let next_line := b1.lines.getD (b1.cursor.row + 1) []
        let lines := b1.lines.take (b1.cursor.row + 1) ++ b1.lines.drop (b1.cursor.row + 2)
        let lines := lines.set b1.cursor.row ((lines.getD b1.cursor.row []) ++ next_line)
        { b1 with lines := lines }
      else b'
    else b'

/-- corelogic/editing.rs: `insert_text`. A present selection is first
deleted (which pushes its own undo snapshot), then `push_undo` runs
again before the insertion. The byte index `char_indices().nth(col)`
with `unwrap_or(len)` is the character position `min col (length)`,
which is what `take`/`drop` at `col` realize. -/
def EditorBuffer.insert_text (b : EditorBuffer) (text : Line) : EditorBuffer :=
  let b := (b.delete_selection).1
  let b := b.push_undo
  if '\n' ∈ text then
    let parts := splitNl text
    let current := b.lines.getD b.cursor.row []
    let before := current.take b.cursor.col
    let after := current.drop b.cursor.col
    match parts with
    | [] => b
    | p0 :: rest =>
      let mids := rest.dropLast
      let lastP := rest.getLast?.getD []
      let lines := b.lines.take b.cursor.row ++ [before ++ p0] ++ mids ++ [lastP ++ after]
                     ++ b.lines.drop (b.cursor.row + 1)
      let row' := b.cursor.row + (parts.length - 1)
      let col' := if 1 < parts.length then lastP.length else b.cursor.col + text.length
      { b with lines := lines, cursor := ⟨row', col'⟩ }
  else
    let line := b.lines.getD b.cursor.row []
    let line' := line.take b.cursor.col ++ text ++ line.drop b.cursor.col
    { b with lines := b.lines.set b.cursor.row line'
             cursor := ⟨b.cursor.row, b.cursor.col + text.length⟩ }

/-- corelogic/editing.rs: `insert_newline`. -/
def EditorBuffer.insert_newline (b : EditorBuffer) : EditorBuffer :=
  let b := (b.delete_selection).1
  let b := b.push_undo
  let current := b.lines.getD b.cursor.row []
  let before := current.take b.cursor.col
  let after := current.drop b.cursor.col
  let row' := b.cursor.row + 1
  let lines := b.lines.set b.cursor.row before
  let lines := lines.take row' ++ [after] ++ lines.drop row'
  { b with lines := lines, cursor := ⟨row', 0⟩ }

/-- corelogic/editing.rs: `paste` (an alias for `insert_text`). -/
def EditorBuffer.paste (b : EditorBuffer) (text : Line) : EditorBuffer :=
  b.insert_text text

/-- corelogic/editing.rs: `delete_line`. Note the final column clamp uses
the byte length `self.lines[row].len()`. -/
def EditorBuffer.delete_line (b : EditorBuffer) : EditorBuffer :=
  if 1 < b.lines.length then
    let b := b.push_undo
    let lines := b.lines.take b.cursor.row ++ b.lines.drop (b.cursor.row + 1)
    let row := if lines.length ≤ b.cursor.row then lines.length - 1 else b.cursor.row
    { b with lines := lines, cursor := ⟨row, min b.cursor.col (byteLen (lines.getD row []))⟩ }
  else
    let b := b.push_undo
    { b with lines := b.lines.set 0 [], cursor := ⟨b.cursor.row, 0⟩ }

/-- corelogic/editing.rs: `duplicate_line`. -/
def EditorBuffer.duplicate_line (b : EditorBuffer) : EditorBuffer :=
  let b := b.push_undo
  let line := b.lines.getD b.cursor.row []
  let lines := b.lines.take (b.cursor.row + 1) ++ [line] ++ b.lines.drop (b.cursor.row + 1)
  { b with lines := lines, cursor := ⟨b.cursor.row + 1, b.cursor.col⟩ }

/-- The hardcoded four-space indent unit of corelogic/editing.rs. -/
def fourSpaces : Line := toL "    "

/-- corelogic/editing.rs: `indent`. With a selection it prepends four
spaces to every selected row and shifts cursor and raw selection columns
by `indent_str.len() = 4`; without one it delegates to `insert_text`
(which pushes a second, identical undo snapshot). -/
def EditorBuffer.indent (b : EditorBuffer) : EditorBuffer :=
  let b := b.push_undo
  match b.selection with
  | some sel =>
    let n := sel.normalized
    let start_row := n.1.1
    let end_row := n.2.1
    let lines := mapIdxGo (fun i l => if start_row ≤ i ∧ i ≤ end_row then fourSpaces ++ l else l) 0 b.lines
    { b with lines := lines
             cursor := ⟨b.cursor.row, b.cursor.col + 4⟩
             selection := some { sel with start_col := sel.start_col + 4, end_col := sel.end_col + 4 } }
  | none => b.insert_text fourSpaces

/-- corelogic/editing.rs: `unindent_single_line`, as the number of leading
characters it removes: four spaces, else one tab, else up to four
individual leading spaces. -/
def unindentCount (l : Line) : Nat :=
  if fourSpaces.isPrefixOf l then 4
  else if l.head? = some '\t' then 1
  else if l.head? = some ' ' then min (l.takeWhile (fun c => c = ' ')).length 4
  else 0

/-- The line left by `unindent_single_line`. -/
def unindentLine (l : Line) : Line := l.drop (unindentCount l)

/-- corelogic/editing.rs: `unindent`. Cursor and raw selection columns are
reduced (saturating at 0) by the amounts removed from the cursor row and
the normalized start/end rows respectively. -/
def EditorBuffer.unindent (b : EditorBuffer) : EditorBuffer :=
  let b := b.push_undo
  match b.selection with
  | some sel =>
    let n := sel.normalized
    let start_row := n.1.1
    let end_row := n.2.1
    let removedAt := fun r =>
      if start_row ≤ r ∧ r ≤ end_row ∧ r < b.lines.length then unindentCount (b.lines.getD r []) else 0
    let lines := mapIdxGo (fun i l => if start_row ≤ i ∧ i ≤ end_row then unindentLine l else l) 0 b.lines
    let rc := removedAt b.cursor.row
    let col' := if rc ≤ b.cursor.col then b.cursor.col - rc else 0
    let rs := removedAt start_row
    let re := removedAt end_row
    let sc' := if rs ≤ sel.start_col then sel.start_col - rs else 0
    let ec' := if re ≤ sel.end_col then sel.end_col - re else 0
    { b with lines := lines
             cursor := ⟨b.cursor.row, col'⟩
             selection := some { sel with start_col := sc', end_col := ec' } }
  | none =>
    let line := b.lines.getD b.cursor.row []
    let removed := unindentCount line
    let col' := if removed ≤ b.cursor.col then b.cursor.col - removed else 0
    { b with lines := b.lines.set b.cursor.row (unindentLine line)
             cursor := ⟨b.cursor.row, col'⟩ }

/-- corelogic/clipboard.rs: `paste_text` - on non-empty text, delete a
present selection, then `insert_text` (empty text is a complete no-op). -/
def EditorBuffer.paste_text (b : EditorBuffer) (text : Line) : EditorBuffer :=
  if text ≠ [] then
    let b := if b.selection.isSome then (b.delete_selection).1 else b
    b.insert_text text
  else b

/-- Rust `str::find` on byte strings: the first byte index at which the
pattern occurs, if any. -/
def bytesFind (q : List Nat) : List Nat → Option Nat
  | [] => if q.isPrefixOf ([] : List Nat) then some 0 else none
  | b :: t => if q.isPrefixOf (b :: t) then some 0 else (bytesFind q t).map (· + 1)

/-- Rust `str::rfind` on byte strings: the last byte index at which the
pattern occurs, if any. -/
def bytesRFind (q : List Nat) (hay : List Nat) : Option Nat :=
  ((List.range (hay.length + 1)).filter (fun i => q.isPrefixOf (hay.drop i))).getLast?

/-- Forward pass of corelogic/search.rs `find_next`: rows `r`, `r+1`, ...
for `fuel` rows; on each row the slice `self.lines[r][start..]` is taken
(with `start = col` on the starting row), which panics (`.error ()`) when
`start` is not a character boundary. -/
def findFwdGo (lines : List Line) (qb : List Nat) (row col : Nat) :
    Nat → Nat → Except Unit (Option (Nat × Nat))
  | 0, _ => .ok none
  | fuel + 1, r =>
    let line := lines.getD r []
    let start := if r = row then col else 0
    if isBoundary line start then
      match bytesFind qb ((lineBytes line).drop start) with
      | some idx => .ok (some (r, start + idx))
      | none => findFwdGo lines qb row col fuel (r + 1)
    else .error ()

/-- Wrap-around pass of corelogic/search.rs `find_next`: rows `r` up to
and including the starting row; each row is sliced as
`self.lines[r][..end]` with `end = col` on the starting row and the byte
length elsewhere.  Indexing `self.lines[r]` out of range, or slicing at a
non-boundary offset, panics. -/
def findWrapGo (lines : List Line) (qb : List Nat) (row col : Nat) :
    Nat → Nat → Except Unit (Option (Nat × Nat))
  | 0, _ => .ok none
  | fuel + 1, r =>
    if lines.length ≤ r then .error ()
    else
      let line := lines.getD r []
      let e := if r = row then col else byteLen line
      if isBoundary line e then
        match bytesFind qb ((lineBytes line).take e) with
        | some idx => .ok (some (r, idx))
        | none => findWrapGo lines qb row col fuel (r + 1)
      else .error ()

/-- corelogic/search.rs: `find_next` with an explicit start position
(byte column). Searches from the start position to the end of the
buffer, then wraps around and searches up to the start position. -/
def findNextLines (lines : List Line) (query : Line) (fr : Nat × Nat) :
    Except Unit (Option (Nat × Nat)) :=
  if query = [] then .ok none
  else
    match findFwdGo lines (lineBytes query) fr.1 fr.2 (lines.length - fr.1) fr.1 with
    | .error e => .error e
    | .ok (some p) => .ok (some p)
    | .ok none => findWrapGo lines (lineBytes query) fr.1 fr.2 (fr.1 + 1) 0

/-- Method `EditorBuffer::find_next`: the start position defaults to the cursor
(whose column the rest of the engine maintains in character units). -/
def EditorBuffer.find_next (b : EditorBuffer) (query : Line) (fr : Option (Nat × Nat)) :
    Except Unit (Option (Nat × Nat)) :=
  findNextLines b.lines query (fr.getD (b.cursor.row, b.cursor.col))

/-- Backward pass of corelogic/search.rs `find_previous`: search the
prefix `self.lines[row][..col.min(len)]` of each row from the start row
towards row 0.  An out-of-range start row breaks the loop; slicing at a
non-boundary offset panics. -/
def findPrevGo (lines : List Line) (qb : List Nat) :
    Nat → Nat → Nat → Except Unit (Option (Nat × Nat))
  | 0, _, _ => .ok none
  | fuel + 1, row, col =>
    if row < lines.length then
      let line := lines.getD row []
      let e := min col (byteLen line)
      if isBoundary line e then
        match bytesRFind qb ((lineBytes line).take e) with
        | some idx => .ok (some (row, idx))
        | none =>
          if row = 0 then .ok none
          else findPrevGo lines qb fuel (row - 1) (byteLen (lines.getD (row - 1) []))
      else .error ()
    else .ok none

/-- corelogic/search.rs: `find_previous` with an explicit start position. -/
def findPrevLines (lines : List Line) (query : Line) (fr : Nat × Nat) :
    Except Unit (Option (Nat × Nat)) :=
  if query = [] then .ok none
  else findPrevGo lines (lineBytes query) (fr.1 + 1) fr.1 fr.2

/-- corelogic/search.rs: `replace_next`. The match position returned by
`find_next` is a byte offset lying on a character boundary at which the
query's bytes occur, so the byte-range splice `replace_range(col..col +
query.len())` removes exactly the `query.length` characters starting at
character index `charsUpToByte line col`; the new cursor column is the
byte offset `col + replacement.len()`. -/
def EditorBuffer.replace_next (b : EditorBuffer) (query replacement : Line)
    (fr : Option (Nat × Nat)) : Except Unit EditorBuffer :=
  match b.find_next query fr with
  | .error e => .error e
  | .ok none => .ok b
  | .ok (some (row, col)) =>
    let b := b.push_undo
    let line := b.lines.getD row []
    let ci := charsUpToByte line col
    let line' := line.take ci ++ replacement ++ line.drop (ci + query.length)
    .ok { b with lines := b.lines.set row line'
                 cursor := ⟨row, col + byteLen replacement⟩ }

/-- Rust `String::replace`: replace every non-overlapping occurrence of
`q`, scanning left to right.  `replace_all` only calls this with a
non-empty pattern; the empty-pattern branch is modelled as no match. -/
def replaceAllLine (q r : Line) : Line → Line
  | [] => []
  | c :: t =>
    if h : q ≠ [] ∧ q.isPrefixOf (c :: t) then r ++ replaceAllLine q r ((c :: t).drop q.length)
    else c :: replaceAllLine q r t
termination_by l => l.length
decreasing_by
  · have hq : 0 < q.length := List.length_pos.mpr h.1
    simp only [List.length_drop, List.length_cons]
    omega
  · simp only [List.length_cons]
    omega

/-- Rust `str::matches(q).count()`: the number of non-overlapping
occurrences, scanning left to right. -/
def countMatches (q : Line) : Line → Nat
  | [] => 0
  | c :: t =>
    if h : q ≠ [] ∧ q.isPrefixOf (c :: t) then 1 + countMatches q ((c :: t).drop q.length)
    else countMatches q t
termination_by l => l.length
decreasing_by
  · have hq : 0 < q.length := List.length_pos.mpr h.1
    simp only [List.length_drop, List.length_cons]
    omega
  · simp only [List.length_cons]
    omega

/-- corelogic/search.rs: `replace_all` - push one undo snapshot, then
replace in every line, counting matches only on lines that changed. -/
def EditorBuffer.replace_all (b : EditorBuffer) (query replacement : Line) :
    EditorBuffer × Nat :=
  if query = [] then (b, 0)
  else
    let b := b.push_undo
    let count := (b.lines.map (fun l =>
      if replaceAllLine query replacement l ≠ l then countMatches query l else 0)).sum
    ({ b with lines := b.lines.map (fun l => replaceAllLine query replacement l) }, count)

/-- corelogic/fileio.rs: `open_file`. The file adapter's outcome
(`crossplatform::open_file`) is passed in as `res`; on success the whole
buffer is replaced and both history stacks are cleared, on failure the
buffer is untouched and the error is returned. -/
def EditorBuffer.open_file (b : EditorBuffer) (res : Except String (List Line)) :
    EditorBuffer × Except String Unit :=
  match res with
  | .ok ls =>
    let ls := if ls = [] then [[]] else ls
    ({ b with lines := ls, cursor := ⟨0, 0⟩, selection := none
              undo_stack := [], redo_stack := [] }, .ok ())
  | .error e => (b, .error e)

/-- corelogic/fileio.rs: `new_file`. -/
def EditorBuffer.new_file (b : EditorBuffer) : EditorBuffer :=
  { b with lines := [[]], cursor := ⟨0, 0⟩, selection := none
           undo_stack := [], redo_stack := [] }

/-- corelogic/fileio.rs: `export_as_text` - lines joined with newlines. -/
def EditorBuffer.export_as_text (b : EditorBuffer) : Line :=
  joinLines b.lines

/-- corelogic/fileio.rs: `import_from_text` - push one undo snapshot,
replace the lines with `text.lines()` (falling back to one empty line),
and reset cursor and selection. -/
def EditorBuffer.import_from_text (b : EditorBuffer) (text : Line) : EditorBuffer :=
  let b := b.push_undo
  let ls := rustLines text
  let ls := if ls = [] then [[]] else ls
  { b with lines := ls, cursor := ⟨0, 0⟩, selection := none }

/-- corelogic/dispatcher.rs: `CommandError` (the diagnostic message
strings are elided except for the adapter error carried by `FileError`). -/
inductive CommandError where
  | invalidState
  | invalidParameters
  | bufferError
  | clipboardError
  | fileError (e : String)
deriving DecidableEq, Repr

/-- The dispatcher actions (with their parameters) that the claims
exercise, a subset of keybinds `EditorAction` plus `CommandParams`. -/
inductive DispAct where
  | insertText (t : Line)
  | moveHome
  | selectRight
  | openFile (path : String)
deriving Repr

/-- corelogic/dispatcher.rs: `validate_buffer_state` (the column bound is
checked against the byte length `self.lines[row].len()`). -/
def validate (b : EditorBuffer) : Option CommandError :=
  if b.lines = [] then some .invalidState
  else if b.lines.length ≤ b.cursor.row then some .invalidState
  else if byteLen (b.lines.getD b.cursor.row []) < b.cursor.col then some .invalidState
  else none

/-- corelogic/dispatcher.rs: `should_clear_selection_for_action`. -/
def shouldClearSelection : DispAct → Bool
  | .insertText _ => false
  | .moveHome => true
  | .selectRight => false
  | .openFile _ => false

/-- corelogic/dispatcher.rs: `execute` - validate, apply the
selection-clearing policy, run the buffer operation, and return the
result (command history, debug logging and redraw signalling are not
part of the modelled state). `fio` is the injected file adapter. -/
def execute (fio : String → Except String (List Line)) (a : DispAct) (b : EditorBuffer) :
    EditorBuffer × Except CommandError Unit :=
  match validate b with
  | some e => (b, .error e)
  | none =>
    let b := if shouldClearSelection a then b.clear_selection_if_exists else b
    match a with
    | .insertText t => (b.insert_text t, .ok ())
    | .moveHome => (b.move_home, .ok ())
    | .selectRight => (b.select_right, .ok ())
    | .openFile path =>
      match b.open_file (fio path) with
      | (b', .ok ()) => (b', .ok ())
      | (b', .error e) => (b', .error (.fileError e))

/-- Run a sequence of dispatcher actions, keeping only the buffer. -/
def runDisp (fio : String → Except String (List Line)) :
    List DispAct → EditorBuffer → EditorBuffer
  | [], b => b
  | a :: rest, b => runDisp fio rest (execute fio a b).1

/-- A file adapter that always fails. -/
def failFio : String → Except String (List Line) := fun _ => .error "no such file"

/-- The editor operations the claims quantify over: every buffer-method
mutation of corelogic (movement, selection, editing, search/replace,
history and whole-buffer replacement).  `open_file` carries the file
adapter's outcome as a parameter. -/
inductive Act where
  | move_left | move_right | move_up | move_down | move_home | move_end
  | move_page_up (n : Nat) | move_page_down (n : Nat)
  | select_left | select_right | select_up | select_down | select_all
  | clear_selection | clear_selection_if_exists
  | backspace | delete
  | insert_text (t : Line) | insert_newline
  | paste_text (t : Line)
  | delete_line | duplicate_line | delete_selection
  | indent | unindent
  | replace_next (q r : Line) | replace_all (q r : Line)
  | import_from_text (t : Line)
  | new_file | open_file (res : Except String (List Line))
  | undo | redo | clear_undo_history
  | find_next_goto (q : Line)

/-- One step of an editor operation; `.error ()` is a Rust panic
(reachable only through the byte-indexed searches). `find_next_goto` is
the dispatcher's `FindNext` arm, which moves the cursor to a hit. -/
def stepAct : Act → EditorBuffer → Except Unit EditorBuffer
  | .move_left, b => .ok b.move_left
  | .move_right, b => .ok b.move_right
  | .move_up, b => .ok b.move_up
  | .move_down, b => .ok b.move_down
  | .move_home, b => .ok b.move_home
  | .move_end, b => .ok b.move_end
  | .move_page_up n, b => .ok (b.move_page_up n)
  | .move_page_down n, b => .ok (b.move_page_down n)
  | .select_left, b => .ok b.select_left
  | .select_right, b => .ok b.select_right
  | .select_up, b => .ok b.select_up
  | .select_down, b => .ok b.select_down
  | .select_all, b => .ok b.select_all
  | .clear_selection, b => .ok b.clear_selection
  | .clear_selection_if_exists, b => .ok b.clear_selection_if_exists
  | .backspace, b => .ok b.backspace
  | .delete, b => .ok b.delete
  | .insert_text t, b => .ok (b.insert_text t)
  | .insert_newline, b => .ok b.insert_newline
  | .paste_text t, b => .ok (b.paste_text t)
  | .delete_line, b => .ok b.delete_line
  | .duplicate_line, b => .ok b.duplicate_line
  | .delete_selection, b => .ok (b.delete_selection).1
  | .indent, b => .ok b.indent
  | .unindent, b => .ok b.unindent
  | .replace_next q r, b => b.replace_next q r none
  | .replace_all q r, b => .ok (b.replace_all q r).1
  | .import_from_text t, b => .ok (b.import_from_text t)
  | .new_file, b => .ok b.new_file
  | .open_file res, b => .ok (b.open_file res).1
  | .undo, b => .ok b.undo
  | .redo, b => .ok b.redo
  | .clear_undo_history, b => .ok b.clear_undo_history
  | .find_next_goto q, b =>
    match b.find_next q none with
    | .error e => .error e
    | .ok (some (r, c)) => .ok { b with cursor := ⟨r, c⟩ }
    | .ok none => .ok b

/-- Run a sequence of editor operations; a panic aborts the run. -/
def runActs : List Act → EditorBuffer → Except Unit EditorBuffer
  | [], b => .ok b
  | a :: rest, b =>
    match stepAct a b with
    | .error e => .error e
    | .ok b' => runActs rest b'

/-- The undo-eligible operations (spec 4.3): exactly those that call
`push_undo` before mutating. -/
def undoEligible : Act → Bool
  | .insert_text _ | .insert_newline | .backspace | .delete
  | .delete_line | .duplicate_line | .delete_selection
  | .indent | .unindent
  | .replace_next _ _ | .replace_all _ _
  | .paste_text _ | .import_from_text _ => true
  | _ => false

/-- The conditions under which an undo-eligible operation pushes its
pre-state as the snapshot a single `undo` will restore: the operation
must not be a silent no-op (which pushes nothing), and the three
insertion operations must run without an active selection (with one they
push two snapshots: one from `delete_selection` and one of their own). -/
def singlePush : Act → EditorBuffer → Prop
  | .insert_text _, b => b.selection = none
  | .insert_newline, b => b.selection = none
  | .paste_text t, b => t ≠ [] ∧ b.selection = none
  | .backspace, b => b.selection ≠ none ∨ 0 < b.cursor.col ∨ 0 < b.cursor.row
  | .delete, b => b.selection ≠ none ∨
      (b.cursor.row < b.lines.length ∧
        (b.cursor.col < (b.lines.getD b.cursor.row []).length ∨ b.cursor.row + 1 < b.lines.length))
  | .delete_selection, b => b.selection ≠ none
  | .replace_next q r, b => ∃ p, b.find_next q none = .ok (some p)
  | .replace_all q r, _ => q ≠ []
  | _, _ => True

/-- Spec-side (4.4) description of one row's forward region: every byte
offset at or after `lo` at which the query bytes occur, in order. -/
def fwdMatchesRow (bs qb : List Nat) (lo : Nat) : List Nat :=
  (List.range' lo (bs.length + 1 - lo)).filter (fun i => qb.isPrefixOf (bs.drop i))

/-- Spec-side description of one row's prefix region: every byte offset
at which the query bytes occur wholly before `hi`, in order. -/
def preMatchesRow (bs qb : List Nat) (hi : Nat) : List Nat :=
  (List.range (hi + 1)).filter (fun i => decide (i + qb.length ≤ hi) && qb.isPrefixOf (bs.drop i))

/-- Spec-side list of all query occurrences at or after the start
position, in row-major order. -/
def specForwardList (lines : List Line) (qb : List Nat) (row col : Nat) : List (Nat × Nat) :=
  (List.range' row (lines.length - row)).flatMap (fun r =>
    (fwdMatchesRow (lineBytes (lines.getD r [])) qb (if r = row then col else 0)).map
      (fun i => (r, i)))

/-- Spec-side list of all query occurrences wholly inside the buffer
region before the start position, in row-major order. -/
def specWrapList (lines : List Line) (qb : List Nat) (row col : Nat) : List (Nat × Nat) :=
  (List.range (row + 1)).flatMap (fun r =>
    (preMatchesRow (lineBytes (lines.getD r [])) qb
      (if r = row then col else byteLen (lines.getD r []))).map (fun i => (r, i)))

/-- Modelled from the spec (4.4): `find_next(query, from)` "searches
forward from `from`; on miss, wraps and searches the prefix up to
`from`" - the first occurrence at or after the start position, else the
first occurrence wholly inside the region before it, else none. -/
def specFindNext (lines : List Line) (query : Line) (row col : Nat) : Option (Nat × Nat) :=
  ((specForwardList lines (lineBytes query) row col).head?).or
    ((specWrapList lines (lineBytes query) row col).head?)

/-- Extract the buffer from a non-panicking run. -/
def exceptGetD : Except Unit EditorBuffer → EditorBuffer → EditorBuffer
  | .ok b, _ => b
  | .error _, d => d

/-- A state reachable from `EditorBuffer::new()`: clear the buffer, type
"ab", then select all of it. -/
def c1Pre : EditorBuffer :=
  exceptGetD (runActs [.new_file, .insert_text (toL "ab"), .select_all] initBuffer) initBuffer

/-- The C1 counterexample state after inserting over the selection. -/
def c1Post : EditorBuffer :=
  exceptGetD (stepAct (.insert_text (toL "X")) c1Pre) c1Pre

/-- Scenario S2 before its final `InsertText("X")`: type "abcdef", Home,
then extend the selection right three times. -/
def c2Mid : EditorBuffer :=
  runDisp failFio
    [.insertText (toL "abcdef"), .moveHome, .selectRight, .selectRight, .selectRight]
    scenarioInit

/-- Scenario S2 after the final `InsertText("X")`. -/
def c2Fin : EditorBuffer :=
  runDisp failFio [.insertText (toL "X")] c2Mid

/-- A buffer whose two lines end with a trailing empty line (for C3). -/
def c3Buffer : EditorBuffer :=
  { scenarioInit with lines := [toL "a", []] }

/-- A buffer whose single line holds one two-byte character (for C5). -/
def c5Buffer : EditorBuffer :=
  { scenarioInit with lines := [toL "é"] }

instance {ε α : Type} [DecidableEq ε] [DecidableEq α] : DecidableEq (Except ε α) := fun x y =>
  match x, y with
  | .ok a, .ok b =>
    if h : a = b then .isTrue (by rw [h]) else .isFalse (by intro hc; cases hc; exact h rfl)
  | .error a, .error b =>
    if h : a = b then .isTrue (by rw [h]) else .isFalse (by intro hc; cases hc; exact h rfl)
  | .ok _, .error _ => .isFalse (by intro hc; cases hc)
  | .error _, .ok _ => .isFalse (by intro hc; cases hc)

/-- The bounded-history invariant behind the cap of 100: the two stacks
never hold more than 100 snapshots in total. -/
def stackInv (b : EditorBuffer) : Prop :=
  b.undo_stack.length + b.redo_stack.length ≤ 100

/- ------------------------------------------------------------------ -/
/- Theorems.                                                           -/
/- ------------------------------------------------------------------ -/

theorem snapshot_push_undo (b : EditorBuffer) : snapshot b.push_undo = snapshot b := rfl

theorem push_undo_lines (b : EditorBuffer) : b.push_undo.lines = b.lines := rfl

theorem push_undo_cursor (b : EditorBuffer) : b.push_undo.cursor = b.cursor := rfl

theorem push_undo_selection (b : EditorBuffer) : b.push_undo.selection = b.selection := rfl

/-- Lemma: `push_undo` always leaves its snapshot of the pre-state on top of the
undo stack: the cap only ever drops the oldest entry. -/
theorem push_undo_stack_cons (b : EditorBuffer) :
    ∃ rest, b.push_undo.undo_stack = snapshot b :: rest := by
  unfold EditorBuffer.push_undo
  dsimp only
  split
  · rename_i h
    match hu : b.undo_stack with
    | [] => rw [hu] at h; simp at h
    | x :: xs =>
      exact ⟨(x :: xs).dropLast, List.dropLast_cons₂⟩
  · exact ⟨b.undo_stack, rfl⟩

/-- Lemma: `undo` restores the view recorded by the snapshot on top of the undo
stack. -/
theorem undo_restores (s t : EditorBuffer) (rest : List BufferState)
    (h : t.undo_stack = snapshot s :: rest) : view t.undo = view s := by
  unfold EditorBuffer.undo
  rw [h]
  rfl

/-- C9: backspace with the cursor at (0,0) and no selection is a complete
no-op: the whole state, history stacks included, is unchanged and no undo
entry is pushed. -/
theorem C9_backspace_origin_noop (b : EditorBuffer)
    (hc : b.cursor = ⟨0, 0⟩) (hs : b.selection = none) : b.backspace = b := by
  unfold EditorBuffer.backspace EditorBuffer.delete_selection
  rw [hs]
  simp [hc]

theorem C9_backspace_origin_noop_witness : scenarioInit.backspace = scenarioInit :=
  C9_backspace_origin_noop scenarioInit rfl rfl

/-- C10: `find_next` is not total at the public interface: with the
cursor at the in-bounds character position (0,2) of the one-line buffer
"aé" (character count 2), the default-`from` search slices the line at
byte offset 2, which is not a character boundary, and panics
(modelled as `.error ()`). -/
theorem C10_find_next_panics :
    (toL "aé").length = 2
    ∧ EditorBuffer.find_next
        { scenarioInit with lines := [toL "aé"], cursor := ⟨0, 2⟩ } (toL "z") none = .error () := by
  constructor
  · decide
  · decide

/-- C4 counterexample: `import_from_text` does NOT leave the undo stack
empty - on the fresh scenario buffer it returns with one snapshot pushed. -/
theorem C4_stacks_cleared_counterexample :
    (scenarioInit.import_from_text (toL "x")).undo_stack ≠ []
    ∧ (scenarioInit.import_from_text (toL "x")).undo_stack.length = 1 := by
  constructor
  · decide
  · decide

/-- C4 amended: `open_file` (on success) and `new_file` leave both
history stacks empty; `import_from_text` instead pushes one undo
snapshot of the pre-import state (making the replacement undoable),
which leaves the redo stack empty but the undo stack non-empty. -/
theorem C4_stacks_cleared_amended :
    (∀ (b : EditorBuffer) (ls : List Line),
        (b.open_file (.ok ls)).1.undo_stack = [] ∧ (b.open_file (.ok ls)).1.redo_stack = [])
    ∧ (∀ b : EditorBuffer, b.new_file.undo_stack = [] ∧ b.new_file.redo_stack = [])
    ∧ (∀ (b : EditorBuffer) (t : Line),
        (b.import_from_text t).redo_stack = []
        ∧ (b.import_from_text t).undo_stack ≠ []
        ∧ (b.import_from_text t).undo_stack.head? = some (snapshot b)) := by
  refine ⟨fun b ls => ⟨rfl, rfl⟩, fun b => ⟨rfl, rfl⟩, fun b t => ?_⟩
  obtain ⟨rest, h⟩ := push_undo_stack_cons b
  have hu : (b.import_from_text t).undo_stack = snapshot b :: rest := h
  refine ⟨rfl, ?_, ?_⟩
  · rw [hu]; simp
  · rw [hu]; rfl

/-- C5 counterexample: on the one-line buffer ["é"] (one character, two
UTF-8 bytes) `select_all` sets the active end column to the byte length
2, not to the character count `columns(last_row) = 1`. -/
theorem C5_select_all_counterexample :
    c5Buffer.select_all.selection ≠ some ⟨0, 0, 0, (c5Buffer.lines.getD 0 []).length⟩
    ∧ c5Buffer.select_all.selection = some ⟨0, 0, 0, 2⟩
    ∧ (c5Buffer.lines.getD 0 []).length = 1 := by
  refine ⟨?_, ?_, ?_⟩ <;> decide

/-- C5 amended: on a non-empty buffer `select_all` sets the selection to
anchor (0,0) and active end (last_row, byte length of the last line);
this agrees with the character-count column unit used by the rest of the
cursor arithmetic only when every character of the last line is a single
UTF-8 byte. -/
theorem C5_select_all_amended (b : EditorBuffer) (h : b.lines ≠ []) :
    b.select_all.selection =
      some ⟨0, 0, b.lines.length - 1, byteLen (b.lines.getD (b.lines.length - 1) [])⟩
    ∧ ((∀ c ∈ b.lines.getD (b.lines.length - 1) [], (encodeChar c).length = 1) →
        byteLen (b.lines.getD (b.lines.length - 1) []) =
          (b.lines.getD (b.lines.length - 1) []).length) := by
  constructor
  · unfold EditorBuffer.select_all
    rw [if_pos h]
  · intro hall
    generalize b.lines.getD (b.lines.length - 1) [] = l at hall
    induction l with
    | nil => rfl
    | cons c t ih =>
      have hc : (encodeChar c).length = 1 := hall c (List.mem_cons_self c t)
      have ht : ∀ x ∈ t, (encodeChar x).length = 1 := fun x hx => hall x (List.mem_cons_of_mem c hx)
      have hbl : byteLen (c :: t) = (encodeChar c).length + byteLen t := by
        simp [byteLen, lineBytes]
      rw [hbl, hc, ih ht]
      simp [Nat.add_comm]

theorem C5_select_all_amended_witness :
    scenarioInit.select_all.selection = some ⟨0, 0, 0, byteLen (scenarioInit.lines.getD 0 [])⟩ :=
  (C5_select_all_amended scenarioInit (by decide)).1

/-- C8: when the file adapter fails, `open_file` leaves the whole buffer
state (lines, cursor, selection, both stacks) unchanged, and the
dispatcher's OpenFile arm surfaces the failure as a `FileError`. -/
theorem C8_open_file_error (fio : String → Except String (List Line)) (path e : String)
    (b : EditorBuffer) (hfio : fio path = .error e) (hv : validate b = none) :
    execute fio (.openFile path) b = (b, .error (.fileError e)) := by
  unfold execute
  rw [hv]
  simp [shouldClearSelection, EditorBuffer.open_file, hfio]

theorem C8_open_file_error_witness :
    execute failFio (.openFile "missing.txt") scenarioInit =
      (scenarioInit, .error (.fileError "no such file")) :=
  C8_open_file_error failFio "missing.txt" "no such file" scenarioInit rfl rfl

/-- C2 counterexample: in scenario S2 the final `InsertText("X")` pushes
TWO undo entries, not one - the undo stack grows from 1 to 3 across it. -/
theorem C2_insert_over_selection_counterexample :
    c2Mid.undo_stack.length = 1
    ∧ c2Fin.undo_stack.length = 3
    ∧ c2Fin.undo_stack.length ≠ c2Mid.undo_stack.length + 1 := by
  refine ⟨?_, ?_, ?_⟩ <;> decide

/-- C2 amended: scenario S2 (InsertText "abcdef", MoveCursorHome,
SelectRight three times, InsertText "X" through the dispatcher) ends
with buffer ["Xdef"], cursor (0,1) and no selection, the selection
before the final insert covering "abc"; the final InsertText pushes
exactly two undo entries (one from `delete_selection`, one from
`insert_text`). -/
theorem C2_insert_over_selection_amended :
    view c2Mid = ⟨[toL "abcdef"], ⟨0, 3⟩, some ⟨0, 0, 0, 3⟩⟩
    ∧ view c2Fin = ⟨[toL "Xdef"], ⟨0, 1⟩, none⟩
    ∧ c2Mid.undo_stack.length = 1
    ∧ c2Fin.undo_stack.length = c2Mid.undo_stack.length + 2 := by
  refine ⟨?_, ?_, ?_, ?_⟩ <;> decide

/-- C1 counterexample: from the state reached from `EditorBuffer::new()`
by NewFile, InsertText "ab", SelectAll, performing the undo-eligible
`insert_text "X"` and then one `undo` does NOT restore the pre-operation
(lines, cursor, selection): it lands on the intermediate state left by
the selection deletion. -/
theorem C1_undo_involution_counterexample :
    runActs [.new_file, .insert_text (toL "ab"), .select_all] initBuffer = .ok c1Pre
    ∧ undoEligible (.insert_text (toL "X")) = true
    ∧ stepAct (.insert_text (toL "X")) c1Pre = .ok c1Post
    ∧ view c1Post.undo ≠ view c1Pre := by
  refine ⟨?_, ?_, ?_, ?_⟩ <;> decide

theorem delete_selection_none (b : EditorBuffer) (h : b.selection = none) :
    b.delete_selection = (b, false) := by
  unfold EditorBuffer.delete_selection
  rw [h]

theorem delete_selection_some_stack (b : EditorBuffer) (s : Selection) (h : b.selection = some s) :
    (∃ r2, (b.delete_selection).1.undo_stack = snapshot b :: r2)
    ∧ (b.delete_selection).2 = true := by
  unfold EditorBuffer.delete_selection
  rw [h]
  obtain ⟨r2, hr2⟩ := push_undo_stack_cons b
  dsimp only
  constructor
  · split <;> exact ⟨r2, hr2⟩
  · split <;> rfl

theorem delete_selection_undo_view (b : EditorBuffer) (s : Selection) (h : b.selection = some s) :
    view (b.delete_selection).1.undo = view b := by
  obtain ⟨⟨r2, hr2⟩, _⟩ := delete_selection_some_stack b s h
  exact undo_restores b _ r2 hr2

theorem insert_text_undo_view (b : EditorBuffer) (t : Line) (hsel : b.selection = none) :
    view (b.insert_text t).undo = view b := by
  obtain ⟨rest, hrest⟩ := push_undo_stack_cons b
  unfold EditorBuffer.insert_text
  rw [delete_selection_none b hsel]
  dsimp only
  split
  · split
    · exact undo_restores b _ rest hrest
    · exact undo_restores b _ rest hrest
  · exact undo_restores b _ rest hrest

/-- C1 amended: performing an undo-eligible operation and then one
`undo` restores the pre-operation (lines, cursor, selection), PROVIDED
the operation actually pushes an undo snapshot (it is not one of the
silent no-op situations) and - for `insert_text`, `insert_newline` and
`paste_text` - it runs with no active selection.  (With an active
selection those three push two snapshots, one from `delete_selection`
and one of their own, so a single undo only reaches the post-deletion
state; the no-op situations push nothing, so `undo` would revert an
earlier edit instead.) -/
theorem C1_undo_involution_amended (a : Act) (b b' : EditorBuffer)
    (he : undoEligible a = true) (hp : singlePush a b) (hs : stepAct a b = .ok b') :
    view b'.undo = view b := by
  obtain ⟨rest, hrest⟩ := push_undo_stack_cons b
  cases a <;> simp only [undoEligible, Bool.false_eq_true] at he <;>
    simp only [stepAct, Except.ok.injEq] at hs
  case insert_text t =>
    subst hs
    exact insert_text_undo_view b t hp
  case insert_newline =>
    subst hs
    have hsel : b.selection = none := hp
    unfold EditorBuffer.insert_newline
    rw [delete_selection_none b hsel]
    dsimp only
    exact undo_restores b _ rest hrest
  case paste_text t =>
    subst hs
    obtain ⟨ht, hsel⟩ := hp
    unfold EditorBuffer.paste_text
    rw [if_pos ht, hsel]
    simp only [Option.isSome_none, Bool.false_eq_true, if_false]
    exact insert_text_undo_view b t hsel
  case backspace =>
    subst hs
    unfold EditorBuffer.backspace
    simp only [singlePush] at hp
    rcases hsel : b.selection with _ | s
    · rw [delete_selection_none b hsel]
      dsimp only
      rw [hsel] at hp
      split
      · exact undo_restores b _ rest hrest
      · split
        · exact undo_restores b _ rest hrest
        · rename_i h1 h2
          rcases hp with h | h | h
          · exact absurd rfl h
          · exact absurd h h1
          · exact absurd h h2
    · rcases hds : b.delete_selection with ⟨b1, flag⟩
      cases flag
      · have h2 := (delete_selection_some_stack b s hsel).2
        rw [hds] at h2
        simp at h2
      · dsimp only
        have hb1 : (b.delete_selection).1 = b1 := by rw [hds]
        rw [← hb1]
        exact delete_selection_undo_view b s hsel
  case delete =>
    subst hs
    unfold EditorBuffer.delete
    simp only [singlePush] at hp
    rcases hsel : b.selection with _ | s
    · rw [delete_selection_none b hsel]
      dsimp only
      rw [hsel] at hp
      have hp' : b.cursor.row < b.lines.length ∧
          (b.cursor.col < (b.lines.getD b.cursor.row []).length ∨
            b.cursor.row + 1 < b.lines.length) := by
        rcases hp with h | h
        · exact absurd rfl h
        · exact h
      split
      · split
        · exact undo_restores b _ rest hrest
        · split
          · exact undo_restores b _ rest hrest
          · rename_i hcol hnext
            rcases hp'.2 with h | h
            · exact absurd h hcol
            · exact absurd h hnext
      · rename_i hrow
        exact absurd hp'.1 hrow
    · rcases hds : b.delete_selection with ⟨b1, flag⟩
      cases flag
      · have h2 := (delete_selection_some_stack b s hsel).2
        rw [hds] at h2
        simp at h2
      · dsimp only
        have hb1 : (b.delete_selection).1 = b1 := by rw [hds]
        rw [← hb1]
        exact delete_selection_undo_view b s hsel
  case delete_line =>
    subst hs
    unfold EditorBuffer.delete_line
    split
    · exact undo_restores b _ rest hrest
    · exact undo_restores b _ rest hrest
  case duplicate_line =>
    subst hs
    exact undo_restores b _ rest hrest
  case delete_selection =>
    subst hs
    simp only [singlePush] at hp
    rcases hsel : b.selection with _ | s
    · exact absurd hsel hp
    · exact delete_selection_undo_view b s hsel
  case indent =>
    subst hs
    unfold EditorBuffer.indent
    dsimp only
    rw [push_undo_selection]
    rcases hsel : b.selection with _ | s
    · exact insert_text_undo_view b.push_undo fourSpaces
        (by rw [push_undo_selection]; exact hsel)
    · exact undo_restores b _ rest hrest
  case unindent =>
    subst hs
    unfold EditorBuffer.unindent
    dsimp only
    rw [push_undo_selection]
    rcases hsel : b.selection with _ | s
    · exact undo_restores b _ rest hrest
    · exact undo_restores b _ rest hrest
  case replace_next q r =>
    obtain ⟨⟨prow, pcol⟩, hf⟩ := hp
    unfold EditorBuffer.replace_next at hs
    rw [hf] at hs
    dsimp only at hs
    rw [Except.ok.injEq] at hs
    subst hs
    exact undo_restores b _ rest hrest
  case replace_all q r =>
    subst hs
    unfold EditorBuffer.replace_all
    rw [if_neg hp]
    exact undo_restores b _ rest hrest
  case import_from_text t =>
    subst hs
    exact undo_restores b _ rest hrest

theorem C1_undo_involution_witness :
    view (EditorBuffer.undo (scenarioInit.insert_text (toL "hi"))) = view scenarioInit :=
  C1_undo_involution_amended (.insert_text (toL "hi")) scenarioInit
    (scenarioInit.insert_text (toL "hi")) rfl rfl rfl

theorem stackInv_push_undo {b : EditorBuffer} (h : stackInv b) : stackInv b.push_undo := by
  unfold stackInv EditorBuffer.push_undo at *
  dsimp only
  split
  · simp only [List.length_dropLast, List.length_cons, List.length_nil]
    omega
  · rename_i hlen
    simp only [List.length_cons, List.length_nil] at *
    omega

theorem stackInv_undo {b : EditorBuffer} (h : stackInv b) : stackInv b.undo := by
  unfold stackInv EditorBuffer.undo at *
  split
  · exact h
  · rename_i prev rest heq
    rw [heq] at h
    simp only [List.length_cons] at *
    omega

theorem stackInv_redo {b : EditorBuffer} (h : stackInv b) : stackInv b.redo := by
  unfold stackInv EditorBuffer.redo at *
  split
  · exact h
  · rename_i next rest heq
    rw [heq] at h
    simp only [List.length_cons] at *
    omega

theorem stackInv_delete_selection_fst {b : EditorBuffer} (h : stackInv b) :
    stackInv (b.delete_selection).1 := by
  unfold EditorBuffer.delete_selection
  rcases b.selection with _ | s
  · exact h
  · dsimp only
    split
    · exact stackInv_push_undo h
    · exact stackInv_push_undo h

theorem stackInv_insert_text (b : EditorBuffer) (t : Line) (h : stackInv b) :
    stackInv (b.insert_text t) := by
  unfold EditorBuffer.insert_text
  dsimp only
  have h2 : stackInv (b.delete_selection).1.push_undo :=
    stackInv_push_undo (stackInv_delete_selection_fst h)
  split
  · split
    · exact h2
    · exact h2
  · exact h2

theorem stackInv_selectWith (mv : EditorBuffer → EditorBuffer) (b : EditorBuffer)
    (hmv : stackInv (mv b)) : stackInv (selectWith mv b) := by
  unfold selectWith
  dsimp only
  split
  · split
    · split
      · exact hmv
      · exact hmv
    · exact hmv
  · exact hmv

theorem stackInv_move_left_internal {b : EditorBuffer} (h : stackInv b) :
    stackInv b.move_left_internal := by
  unfold EditorBuffer.move_left_internal
  split_ifs <;> exact h

theorem stackInv_move_right_internal {b : EditorBuffer} (h : stackInv b) :
    stackInv b.move_right_internal := by
  unfold EditorBuffer.move_right_internal
  split_ifs <;> exact h

theorem stackInv_move_up_internal {b : EditorBuffer} (h : stackInv b) :
    stackInv b.move_up_internal := by
  unfold EditorBuffer.move_up_internal
  split_ifs <;> exact h

theorem stackInv_move_down_internal {b : EditorBuffer} (h : stackInv b) :
    stackInv b.move_down_internal := by
  unfold EditorBuffer.move_down_internal
  split_ifs <;> exact h

/-- Every editor operation preserves the bounded-history invariant. -/
theorem stackInv_step (a : Act) (b b' : EditorBuffer)
    (h : stackInv b) (hs : stepAct a b = .ok b') : stackInv b' := by
  cases a <;> simp only [stepAct, Except.ok.injEq] at hs
  case move_left =>
    subst hs
    exact stackInv_move_left_internal h
  case move_right =>
    subst hs
    exact stackInv_move_right_internal h
  case move_up =>
    subst hs
    exact stackInv_move_up_internal h
  case move_down =>
    subst hs
    exact stackInv_move_down_internal h
  case move_home =>
    subst hs
    exact h
  case move_end =>
    subst hs
    exact h
  case move_page_up n =>
    subst hs
    exact h
  case move_page_down n =>
    subst hs
    exact h
  case select_left =>
    subst hs
    exact stackInv_selectWith _ b (stackInv_move_left_internal h)
  case select_right =>
    subst hs
    exact stackInv_selectWith _ b (stackInv_move_right_internal h)
  case select_up =>
    subst hs
    exact stackInv_selectWith _ b (stackInv_move_up_internal h)
  case select_down =>
    subst hs
    exact stackInv_selectWith _ b (stackInv_move_down_internal h)
  case select_all =>
    subst hs
    unfold EditorBuffer.select_all
    split_ifs <;> exact h
  case clear_selection =>
    subst hs
    exact h
  case clear_selection_if_exists =>
    subst hs
    unfold EditorBuffer.clear_selection_if_exists
    split_ifs <;> exact h
  case backspace =>
    subst hs
    unfold EditorBuffer.backspace
    have h1 : stackInv (b.delete_selection).1 := stackInv_delete_selection_fst h
    rcases hds : b.delete_selection with ⟨b1, flag⟩
    rw [hds] at h1
    dsimp only at h1
    cases flag
    · dsimp only
      split_ifs <;> first | exact h1 | exact stackInv_push_undo h1
    · exact h1
  case delete =>
    subst hs
    unfold EditorBuffer.delete
    have h1 : stackInv (b.delete_selection).1 := stackInv_delete_selection_fst h
    rcases hds : b.delete_selection with ⟨b1, flag⟩
    rw [hds] at h1
    dsimp only at h1
    cases flag
    · dsimp only
      split_ifs <;> first | exact h1 | exact stackInv_push_undo h1
    · exact h1
  case insert_text t =>
    subst hs
    exact stackInv_insert_text b t h
  case insert_newline =>
    subst hs
    exact stackInv_push_undo (stackInv_delete_selection_fst h)
  case paste_text t =>
    subst hs
    unfold EditorBuffer.paste_text
    split_ifs with h1 h2
    · exact stackInv_insert_text _ t (stackInv_delete_selection_fst h)
    · exact stackInv_insert_text _ t h
    · exact h
  case delete_line =>
    subst hs
    unfold EditorBuffer.delete_line
    split <;> exact stackInv_push_undo h
  case duplicate_line =>
    subst hs
    exact stackInv_push_undo h
  case delete_selection =>
    subst hs
    exact stackInv_delete_selection_fst h
  case indent =>
    subst hs
    unfold EditorBuffer.indent
    dsimp only
    rw [push_undo_selection]
    rcases b.selection with _ | s
    · exact stackInv_insert_text _ _ (stackInv_push_undo h)
    · exact stackInv_push_undo h
  case unindent =>
    subst hs
    unfold EditorBuffer.unindent
    dsimp only
    rw [push_undo_selection]
    rcases b.selection with _ | s
    · exact stackInv_push_undo h
    · exact stackInv_push_undo h
  case replace_next q r =>
    unfold EditorBuffer.replace_next at hs
    rcases hf : b.find_next q none with e | op
    · rw [hf] at hs
      simp at hs
    · rw [hf] at hs
      rcases op with _ | ⟨prow, pcol⟩
      · dsimp only at hs
        rw [Except.ok.injEq] at hs
        subst hs
        exact h
      · dsimp only at hs
        rw [Except.ok.injEq] at hs
        subst hs
        exact stackInv_push_undo h
  case replace_all q r =>
    subst hs
    unfold EditorBuffer.replace_all
    split_ifs
    · exact h
    · exact stackInv_push_undo h
  case import_from_text t =>
    subst hs
    exact stackInv_push_undo h
  case new_file =>
    subst hs
    simp [stackInv, EditorBuffer.new_file]
  case open_file res =>
    subst hs
    unfold EditorBuffer.open_file
    rcases res with e | ls
    · exact h
    · simp [stackInv]
  case undo =>
    subst hs
    exact stackInv_undo h
  case redo =>
    subst hs
    exact stackInv_redo h
  case clear_undo_history =>
    subst hs
    simp [stackInv, EditorBuffer.clear_undo_history]
  case find_next_goto q =>
    rcases hf : b.find_next q none with e | op
    · rw [hf] at hs
      simp at hs
    · rw [hf] at hs
      rcases op with _ | ⟨prow, pcol⟩
      · dsimp only at hs
        rw [Except.ok.injEq] at hs
        subst hs
        exact h
      · dsimp only at hs
        rw [Except.ok.injEq] at hs
        subst hs
        exact h

theorem stackInv_runActs (acts : List Act) (b b' : EditorBuffer)
    (h : stackInv b) (hr : runActs acts b = .ok b') : stackInv b' := by
  induction acts generalizing b with
  | nil =>
    unfold runActs at hr
    rw [Except.ok.injEq] at hr
    subst hr
    exact h
  | cons a rest ih =>
    unfold runActs at hr
    rcases hsa : stepAct a b with e | b1
    · rw [hsa] at hr
      simp at hr
    · rw [hsa] at hr
      dsimp only at hr
      exact ih b1 (stackInv_step a b b1 h hsa) hr

/-- C7: `push_undo` snapshots the current (lines, cursor, selection) on
top of the undo stack, clears the redo stack, drops the oldest snapshot
exactly when the cap of 100 would be exceeded, and keeps the stack at or
below 100 entries; consequently `undo_stack.length ≤ 100` holds in every
state reachable by editor operations from the initial buffer. -/
theorem C7_push_undo_cap :
    (∀ b : EditorBuffer,
        b.push_undo.redo_stack = []
        ∧ b.push_undo.undo_stack.head? = some (snapshot b)
        ∧ (b.undo_stack.length < 100 → b.push_undo.undo_stack = snapshot b :: b.undo_stack)
        ∧ (100 ≤ b.undo_stack.length →
            b.push_undo.undo_stack = (snapshot b :: b.undo_stack).dropLast)
        ∧ (b.undo_stack.length ≤ 100 → b.push_undo.undo_stack.length ≤ 100))
    ∧ (∀ (acts : List Act) (b' : EditorBuffer),
        runActs acts initBuffer = .ok b' → b'.undo_stack.length ≤ 100) := by
  constructor
  · intro b
    obtain ⟨rest, hrest⟩ := push_undo_stack_cons b
    refine ⟨rfl, by rw [hrest]; rfl, ?_, ?_, ?_⟩
    · intro hlt
      show (if 100 < (snapshot b :: b.undo_stack).length then _ else _) = _
      rw [if_neg]
      simp only [List.length_cons]
      omega
    · intro hge
      show (if 100 < (snapshot b :: b.undo_stack).length then _ else _) = _
      rw [if_pos]
      simp only [List.length_cons]
      omega
    · intro hle
      show (if 100 < (snapshot b :: b.undo_stack).length then
              (snapshot b :: b.undo_stack).dropLast
            else snapshot b :: b.undo_stack).length ≤ 100
      split
      · simp only [List.length_dropLast, List.length_cons]
        omega
      · rename_i hgt
        simp only [List.length_cons] at hgt ⊢
        omega
  · intro acts b' hr
    have hinv : stackInv b' := stackInv_runActs acts initBuffer b' (by norm_num [stackInv, initBuffer]) hr
    unfold stackInv at hinv
    omega

theorem C7_push_undo_cap_witness :
    scenarioInit.push_undo.redo_stack = []
    ∧ scenarioInit.push_undo.undo_stack = snapshot scenarioInit :: scenarioInit.undo_stack
    ∧ (exceptGetD (runActs [.insert_text (toL "a")] initBuffer) initBuffer).undo_stack.length ≤ 100 :=
  ⟨(C7_push_undo_cap.1 scenarioInit).1,
   (C7_push_undo_cap.1 scenarioInit).2.2.1 (by decide),
   C7_push_undo_cap.2 [.insert_text (toL "a")] _ rfl⟩

theorem splitNl_no_nl (l : Line) (h : '\n' ∉ l) : splitNl l = [l] := by
  induction l with
  | nil => rfl
  | cons c t ih =>
    have hc : c ≠ '\n' := fun hcc => h (hcc ▸ List.mem_cons_self c t)
    have ht : '\n' ∉ t := fun hm => h (List.mem_cons_of_mem c hm)
    unfold splitNl
    rw [if_neg hc, ih ht]

theorem splitNl_append_nl (l r' : Line) (h : '\n' ∉ l) :
    splitNl (l ++ '\n' :: r') = l :: splitNl r' := by
  induction l with
  | nil =>
    simp only [List.nil_append]
    rw [splitNl, if_pos rfl]
  | cons c t ih =>
    have hc : c ≠ '\n' := fun hcc => h (hcc ▸ List.mem_cons_self c t)
    have ht : '\n' ∉ t := fun hm => h (List.mem_cons_of_mem c hm)
    simp only [List.cons_append]
    rw [splitNl, if_neg hc, ih ht]

theorem splitNl_joinLines (L : List Line) (hne : L ≠ []) (h : ∀ l ∈ L, '\n' ∉ l) :
    splitNl (joinLines L) = L := by
  induction L with
  | nil => exact absurd rfl hne
  | cons l ls ih =>
    cases ls with
    | nil =>
      show splitNl (joinLines [l]) = [l]
      rw [show joinLines [l] = l from rfl]
      exact splitNl_no_nl l (h l (List.mem_cons_self _ _))
    | cons l2 ls2 =>
      have hjl : joinLines (l :: l2 :: ls2) = l ++ '\n' :: joinLines (l2 :: ls2) := rfl
      rw [hjl, splitNl_append_nl _ _ (h l (List.mem_cons_self _ _)),
        ih (by simp) (fun x hx => h x (List.mem_cons_of_mem l hx))]

theorem mem_of_getLast?_eq {α : Type} {l : List α} {a : α} (h : l.getLast? = some a) :
    a ∈ l := by
  induction l with
  | nil => simp at h
  | cons x xs ih =>
    cases xs with
    | nil =>
      simp only [List.getLast?_singleton, Option.some.injEq] at h
      simp [h]
    | cons y ys =>
      rw [List.getLast?_cons_cons] at h
      exact List.mem_cons_of_mem x (ih h)

theorem stripCr_no_cr (l : Line) (h : '\r' ∉ l) : stripCr l = l := by
  unfold stripCr
  rw [if_neg (fun hc => h (mem_of_getLast?_eq hc))]

theorem joinLines_getLast? (L : List Line) (last : Line) (h : L.getLast? = some last)
    (hne : last ≠ []) : (joinLines L).getLast? = last.getLast? ∧ joinLines L ≠ [] := by
  induction L with
  | nil => simp at h
  | cons l ls ih =>
    cases ls with
    | nil =>
      simp only [List.getLast?_singleton, Option.some.injEq] at h
      subst h
      exact ⟨rfl, hne⟩
    | cons l2 ls2 =>
      rw [List.getLast?_cons_cons] at h
      obtain ⟨ih1, ih2⟩ := ih h
      have hjl : joinLines (l :: l2 :: ls2) = l ++ '\n' :: joinLines (l2 :: ls2) := rfl
      constructor
      · rw [hjl, List.getLast?_append]
        rcases hJ : joinLines (l2 :: ls2) with _ | ⟨j, js⟩
        · exact absurd hJ ih2
        · rw [hJ] at ih1
          rw [List.getLast?_cons_cons, ih1, List.getLast?_eq_getLast last hne, Option.or_some]
      · rw [hjl]
        simp

/-- C3 counterexample: export/import does NOT restore a buffer whose last
line is empty - ["a", ""] exports to "a\n", which `str::lines()` reads
back as the single line ["a"]. -/
theorem C3_roundtrip_counterexample :
    (c3Buffer.import_from_text c3Buffer.export_as_text).lines ≠ c3Buffer.lines
    ∧ c3Buffer.lines = [toL "a", []]
    ∧ (∀ l ∈ c3Buffer.lines, '\n' ∉ l ∧ '\r' ∉ l)
    ∧ (c3Buffer.import_from_text c3Buffer.export_as_text).lines = [toL "a"] := by
  refine ⟨?_, ?_, ?_, ?_⟩ <;> decide

/-- C3 amended: `import_from_text (export_as_text b)` restores exactly
the original lines for every buffer with terminator-free lines whose
LAST line is non-empty (or which is the single empty line); a trailing
empty line is dropped, because export joins with newlines and Rust's
`str::lines()` omits the final empty segment. -/
theorem C3_roundtrip_amended (b : EditorBuffer)
    (hne : b.lines ≠ [])
    (hterm : ∀ l ∈ b.lines, '\n' ∉ l ∧ '\r' ∉ l)
    (hlast : b.lines.getLast? ≠ some [] ∨ b.lines = [[]]) :
    (b.import_from_text b.export_as_text).lines = b.lines := by
  have himp : ∀ (t : Line), (b.import_from_text t).lines =
      (if rustLines t = [] then [[]] else rustLines t) := fun t => rfl
  have hexp : b.export_as_text = joinLines b.lines := rfl
  rcases hlast with hlast | hsingle
  · obtain ⟨last, hl⟩ := Option.isSome_iff_exists.mp (List.getLast?_isSome.mpr hne)
    have hlne : last ≠ [] := fun hl0 => hlast (by rw [hl, hl0])
    have hnl : ∀ l ∈ b.lines, '\n' ∉ l := fun l hm => (hterm l hm).1
    have hsplit : splitNl (joinLines b.lines) = b.lines := splitNl_joinLines _ hne hnl
    have hrl : rustLines (joinLines b.lines) = b.lines := by
      unfold rustLines
      rw [hsplit]
      dsimp only
      rw [hl]
      dsimp only
      rw [if_neg hlne]
      have hmap : b.lines.dropLast.map stripCr = b.lines.dropLast := by
        have hcongr : ∀ l ∈ b.lines.dropLast, stripCr l = l := fun l hm =>
          stripCr_no_cr l ((hterm l (List.dropLast_subset _ hm)).2)
        calc b.lines.dropLast.map stripCr = b.lines.dropLast.map id :=
              List.map_congr_left hcongr
          _ = b.lines.dropLast := List.map_id _
      rw [hmap]
      rw [List.getLast?_eq_getLast _ hne] at hl
      rw [show last = b.lines.getLast hne from (Option.some.inj hl).symm]
      exact List.dropLast_append_getLast hne
    rw [himp, hexp, hrl, if_neg hne]
  · rw [himp, hexp, hsingle]
    rfl

theorem C3_roundtrip_witness :
    (({ scenarioInit with lines := [toL "a", toL "b"] }).import_from_text
        ({ scenarioInit with lines := [toL "a", toL "b"] }).export_as_text).lines =
      ({ scenarioInit with lines := [toL "a", toL "b"] } : EditorBuffer).lines :=
  C3_roundtrip_amended _ (by decide) (by decide) (Or.inl (by decide))

theorem bytesFind_eq (q : List Nat) (hay : List Nat) :
    bytesFind q hay =
      ((List.range (hay.length + 1)).filter (fun i => q.isPrefixOf (hay.drop i))).head? := by
  induction hay with
  | nil =>
    show (if q.isPrefixOf ([] : List Nat) then some 0 else none) = _
    rw [show List.range (List.length ([] : List Nat) + 1) = [0] from rfl, List.filter_cons]
    by_cases hq : q.isPrefixOf ([] : List Nat)
    · rw [if_pos hq, if_pos (by simpa using hq)]
      rfl
    · rw [if_neg hq, if_neg (by simpa using hq)]
      rfl
  | cons x t ih =>
    show (if q.isPrefixOf (x :: t) then some 0 else (bytesFind q t).map (· + 1)) = _
    rw [show List.length (x :: t) + 1 = t.length + 1 + 1 from by simp,
      List.range_succ_eq_map, List.filter_cons]
    by_cases hq : q.isPrefixOf (x :: t)
    · rw [if_pos hq, if_pos (by simpa using hq)]
      rfl
    · rw [if_neg hq, if_neg (by simpa using hq)]
      rw [List.filter_map, List.head?_map, ih]
      have hfc : List.filter ((fun i => q.isPrefixOf ((x :: t).drop i)) ∘ Nat.succ)
            (List.range (t.length + 1))
          = List.filter (fun i => q.isPrefixOf (t.drop i)) (List.range (t.length + 1)) := by
        apply List.filter_congr
        intro i hi
        simp [Function.comp, List.drop_succ_cons]
      rw [hfc]

theorem fwdRow_head (bs qb : List Nat) (lo : Nat) (hlo : lo ≤ bs.length) :
    (fwdMatchesRow bs qb lo).head? = (bytesFind qb (bs.drop lo)).map (· + lo) := by
  unfold fwdMatchesRow
  rw [bytesFind_eq, List.length_drop]
  have hn : bs.length + 1 - lo = bs.length - lo + 1 := by omega
  rw [hn, List.range'_eq_map_range, List.filter_map, List.head?_map]
  have hfc : List.filter ((fun i => qb.isPrefixOf (bs.drop i)) ∘ (fun x => lo + x))
        (List.range (bs.length - lo + 1))
      = List.filter (fun i => qb.isPrefixOf ((bs.drop lo).drop i))
          (List.range (bs.length - lo + 1)) := by
    apply List.filter_congr
    intro i hi
    simp only [Function.comp_apply]
    rw [List.drop_drop]
  rw [hfc]
  cases (List.filter (fun i => qb.isPrefixOf ((bs.drop lo).drop i))
      (List.range (bs.length - lo + 1))).head? <;>
    simp [Nat.add_comm]

theorem prefix_take_iff' (q l : List Nat) (k : Nat) :
    q <+: l.take k ↔ (q <+: l ∧ q.length ≤ k) := by
  constructor
  · intro h1
    have htp := List.take_prefix k l
    refine ⟨h1.trans htp, ?_⟩
    have h1len := h1.length_le
    rw [List.length_take] at h1len
    exact le_trans h1len (min_le_left _ _)
  · rintro ⟨h2, h3⟩
    rw [List.prefix_iff_eq_take] at h2 ⊢
    rw [List.take_take]
    conv_lhs => rw [h2]
    congr 1
    omega

theorem isPrefixOf_take (q l : List Nat) (k : Nat) :
    q.isPrefixOf (l.take k) = (decide (q.length ≤ k) && q.isPrefixOf l) := by
  rw [Bool.eq_iff_iff]
  simp only [Bool.and_eq_true, decide_eq_true_eq, List.isPrefixOf_iff_prefix]
  rw [prefix_take_iff']
  tauto

theorem preRow_head (bs qb : List Nat) (hi : Nat) (hhi : hi ≤ bs.length) :
    (preMatchesRow bs qb hi).head? = bytesFind qb (bs.take hi) := by
  unfold preMatchesRow
  rw [bytesFind_eq, List.length_take, min_eq_left hhi]
  apply congrArg
  apply List.filter_congr
  intro i hi2
  rw [List.mem_range] at hi2
  rw [List.drop_take, isPrefixOf_take]
  congr 1
  rw [decide_eq_decide]
  omega

theorem isBoundary_zero (l : Line) : isBoundary l 0 = true := by
  cases l <;> rfl

theorem encodeChar_length_pos (c : Char) : 0 < (encodeChar c).length := by
  unfold encodeChar
  dsimp only
  split_ifs <;> simp

theorem lineBytes_cons (c : Char) (t : Line) :
    lineBytes (c :: t) = encodeChar c ++ lineBytes t := rfl

theorem byteLen_cons (c : Char) (t : Line) :
    byteLen (c :: t) = (encodeChar c).length + byteLen t := by
  unfold byteLen
  rw [lineBytes_cons, List.length_append]

theorem isBoundary_le (l : Line) (i : Nat) (h : isBoundary l i = true) : i ≤ byteLen l := by
  induction l generalizing i with
  | nil =>
    cases i with
    | zero => exact Nat.zero_le _
    | succ j => simp [isBoundary] at h
  | cons c t ih =>
    cases i with
    | zero => exact Nat.zero_le _
    | succ j =>
      rw [isBoundary] at h
      split_ifs at h with hlt
      have hrec := ih _ h
      rw [byteLen_cons]
      omega

theorem isBoundary_byteLen (l : Line) : isBoundary l (byteLen l) = true := by
  induction l with
  | nil => rfl
  | cons c t ih =>
    rw [byteLen_cons]
    have hpos := encodeChar_length_pos c
    obtain ⟨k, hk⟩ : ∃ k, (encodeChar c).length + byteLen t = k + 1 :=
      ⟨(encodeChar c).length + byteLen t - 1, by omega⟩
    rw [hk, isBoundary]
    rw [if_neg (by omega)]
    rw [show k + 1 - (encodeChar c).length = byteLen t from by omega]
    exact ih

theorem findFwdGo_eq (lines : List Line) (qb : List Nat) (row col : Nat)
    (hb : isBoundary (lines.getD row []) col = true) :
    ∀ (fuel r : Nat),
      findFwdGo lines qb row col fuel r =
        .ok (((List.range' r fuel).flatMap (fun r' =>
          (fwdMatchesRow (lineBytes (lines.getD r' [])) qb (if r' = row then col else 0)).map
            (fun i => (r', i)))).head?) := by
  intro fuel
  induction fuel with
  | zero => intro r; rfl
  | succ fuel ih =>
    intro r
    rw [List.range'_succ, List.flatMap_cons, List.head?_append, findFwdGo]
    have hbnd : isBoundary (lines.getD r []) (if r = row then col else 0) = true := by
      split_ifs with hr
      · subst hr; exact hb
      · exact isBoundary_zero _
    have hle : (if r = row then col else 0) ≤ (lineBytes (lines.getD r [])).length := by
      split_ifs with hr
      · subst hr; exact isBoundary_le _ _ hb
      · exact Nat.zero_le _
    rw [if_pos hbnd]
    rcases hbf : bytesFind qb ((lineBytes (lines.getD r [])).drop (if r = row then col else 0)) with
      _ | idx
    · rw [List.head?_map, fwdRow_head _ _ _ hle, hbf]
      simp only [Option.map_none', Option.none_or]
      exact ih (r + 1)
    · rw [List.head?_map, fwdRow_head _ _ _ hle, hbf]
      simp [Nat.add_comm]

theorem findWrapGo_eq (lines : List Line) (qb : List Nat) (row col : Nat)
    (hrow : row < lines.length) (hb : isBoundary (lines.getD row []) col = true) :
    ∀ (fuel r : Nat), r + fuel ≤ row + 1 →
      findWrapGo lines qb row col fuel r =
        .ok (((List.range' r fuel).flatMap (fun r' =>
          (preMatchesRow (lineBytes (lines.getD r' [])) qb
            (if r' = row then col else byteLen (lines.getD r' []))).map
              (fun i => (r', i)))).head?) := by
  intro fuel
  induction fuel with
  | zero => intro r hr; rfl
  | succ fuel ih =>
    intro r hr
    rw [List.range'_succ, List.flatMap_cons, List.head?_append, findWrapGo]
    rw [if_neg (by omega)]
    dsimp only
    have hbnd : isBoundary (lines.getD r [])
        (if r = row then col else byteLen (lines.getD r [])) = true := by
      split_ifs with hre
      · subst hre; exact hb
      · exact isBoundary_byteLen _
    have hle : (if r = row then col else byteLen (lines.getD r []))
        ≤ (lineBytes (lines.getD r [])).length := by
      split_ifs with hre
      · subst hre; exact isBoundary_le _ _ hb
      · exact Nat.le_refl _
    rw [if_pos hbnd]
    rcases hbf : bytesFind qb
        ((lineBytes (lines.getD r [])).take (if r = row then col else byteLen (lines.getD r []))) with
      _ | idx
    · rw [List.head?_map, preRow_head _ _ _ hle, hbf]
      simp only [Option.map_none', Option.none_or]
      exact ih (r + 1) (by omega)
    · rw [List.head?_map, preRow_head _ _ _ hle, hbf]
      simp

theorem findNextLines_eq_spec (lines : List Line) (q : Line) (row col : Nat)
    (hq : q ≠ []) (hrow : row < lines.length) (hb : isBoundary (lines.getD row []) col = true) :
    findNextLines lines q (row, col) = .ok (specFindNext lines q row col) := by
  unfold findNextLines specFindNext specForwardList specWrapList
  rw [if_neg hq]
  dsimp only
  rw [findFwdGo_eq lines (lineBytes q) row col hb (lines.length - row) row,
    findWrapGo_eq lines (lineBytes q) row col hrow hb (row + 1) 0 (by omega),
    List.range_eq_range']
  cases ((List.range' row (lines.length - row)).flatMap (fun r' =>
      (fwdMatchesRow (lineBytes (lines.getD r' [])) (lineBytes q)
        (if r' = row then col else 0)).map (fun i => (r', i)))).head? with
  | none => simp
  | some p => simp

theorem specFindNext_none_of_nowhere (lines : List Line) (q : Line) (row col : Nat)
    (hno : ∀ r i, ¬ ((lineBytes q).isPrefixOf ((lineBytes (lines.getD r [])).drop i) = true)) :
    specFindNext lines q row col = none := by
  unfold specFindNext specForwardList specWrapList
  have h1 : (List.range' row (lines.length - row)).flatMap (fun r' =>
      (fwdMatchesRow (lineBytes (lines.getD r' [])) (lineBytes q)
        (if r' = row then col else 0)).map (fun i => (r', i))) = [] := by
    rw [List.flatMap_eq_nil_iff]
    intro r' _
    rw [List.map_eq_nil_iff]
    unfold fwdMatchesRow
    rw [List.filter_eq_nil_iff]
    intro i _
    exact hno r' i
  have h2 : (List.range (row + 1)).flatMap (fun r' =>
      (preMatchesRow (lineBytes (lines.getD r' [])) (lineBytes q)
        (if r' = row then col else byteLen (lines.getD r' []))).map (fun i => (r', i))) = [] := by
    rw [List.flatMap_eq_nil_iff]
    intro r' _
    rw [List.map_eq_nil_iff]
    unfold preMatchesRow
    rw [List.filter_eq_nil_iff]
    intro i _
    simp only [Bool.and_eq_true, not_and]
    intro _
    exact hno r' i
  rw [h1, h2]
  rfl

/-- C6: `find_next` searches forward from the start position to the end
of the buffer and, on a miss, wraps around and searches the region of
the buffer before the start position, returning the first occurrence
found (`specFindNext`); when the query occurs nowhere it returns none;
and on the buffer ["foo bar foo"] with start (0,9) it wraps and returns
(0,0). -/
theorem C6_find_next_wraps :
    (findNextLines [toL "foo bar foo"] (toL "foo") (0, 9) = .ok (some (0, 0)))
    ∧ ∀ (lines : List Line) (q : Line) (row col : Nat),
        q ≠ [] → row < lines.length → isBoundary (lines.getD row []) col = true →
        findNextLines lines q (row, col) = .ok (specFindNext lines q row col)
        ∧ ((∀ r i, ¬ ((lineBytes q).isPrefixOf ((lineBytes (lines.getD r [])).drop i) = true)) →
            findNextLines lines q (row, col) = .ok none) := by
  refine ⟨by decide, fun lines q row col hq hrow hb => ?_⟩
  have hmain := findNextLines_eq_spec lines q row col hq hrow hb
  exact ⟨hmain, fun hno => by
    rw [hmain, specFindNext_none_of_nowhere lines q row col hno]⟩

theorem C6_find_next_wraps_witness :
    findNextLines [toL "ab"] (toL "b") (0, 0) = .ok (specFindNext [toL "ab"] (toL "b") 0 0) :=
  (C6_find_next_wraps.2 [toL "ab"] (toL "b") 0 0 (by decide) (by decide) (by decide)).1
